import Mathlib

/-!
# diagnostic-kit: FilterLogger and the demo server's control flow

A shallow embedding of `logger.go` (package `diagnostic`) and of the sequential
control flow of `cmd/server/main.go` (the `/logging` handler and the exit code
of the program).

* A `log.Logger` is modelled by what its `Log` method returns for a record.
  Calls made on the wrapped loggers are recorded in a trace, so that
  "forwarded exactly once to exactly one logger" can be stated.
* `fmt.Sprint` is a parameter `sprint : α → String`, where `α` is the type of
  the entries of a record (`interface{}` in the source).
* A Go run-time panic is an explicit outcome.
-/

set_option autoImplicit false

namespace Diagnostic

/-! ## logger.go -/

/-- A non-nil `log.Logger`: the `error` its `Log` method returns for a record.
`α` is the type of record entries, `ε` the type of `error` values. -/
abbrev Logger (α ε : Type) := List α → ε

/-- The two run-time panics `FilterLogger.Log` can raise. -/
inductive Panic where
  /-- Index out of range at `keyvals[i+1]`. -/
  | indexOutOfRange
  /-- Method call on a nil `log.Logger` interface value. -/
  | nilDereference
  deriving DecidableEq, Repr

/-- Which wrapped logger a call went to. -/
inductive Target where
  | hit
  | miss
  deriving DecidableEq, Repr

/-- How a call of `Log` ends: it returns an `error` value, or it panics. -/
inductive Outcome (ε : Type) where
  | returned (err : ε)
  | panicked (p : Panic)
  deriving DecidableEq, Repr

/-- What one call of `FilterLogger.Log` does: the calls it made on the wrapped
loggers, in order, each with the record it passed, and how it ended. -/
structure LogResult (α ε : Type) where
  calls : List (Target × List α)
  outcome : Outcome ε
  deriving DecidableEq, Repr

/-- The struct `FilterLogger` (logger.go:12-17). `Hit` and `Miss` are interface
values and may be nil (`none`). -/
structure FilterLogger (α ε : Type) where
  Hit : Option (Logger α ε)
  Miss : Option (Logger α ε)
  Key : String
  Value : String

/-- The call `lg.Log(keyvals...)` on the interface value `lg`: a nil interface
panics before any logger is reached; a non-nil one is called once with the
record and its error is returned. -/
def callLogger {α ε : Type} (t : Target) (lg : Option (Logger α ε)) (keyvals : List α) :
    LogResult α ε :=
  match lg with
  | none => ⟨[], .panicked .nilDereference⟩
  | some f => ⟨[(t, keyvals)], .returned (f keyvals)⟩

/-- The loop of `FilterLogger.Log` (logger.go:22-29) from index `i` on:
`for ; i < len(keyvals); i += 2 { ... }; return l.Miss.Log(keyvals...)`.
`keyvals[i+1]` is read only after the key at `i` printed equal to `l.Key`, and
panics when `i+1` is out of range. -/
def FilterLogger.logFrom {α ε : Type} (l : FilterLogger α ε) (sprint : α → String)
    (keyvals : List α) (i : Nat) : LogResult α ε :=
  if h : i < keyvals.length then
    if sprint (keyvals.get ⟨i, h⟩) = l.Key then
      if h1 : i + 1 < keyvals.length then
        if sprint (keyvals.get ⟨i + 1, h1⟩) = l.Value then
          callLogger .hit l.Hit keyvals
        else
          l.logFrom sprint keyvals (i + 2)
      else
        ⟨[], .panicked .indexOutOfRange⟩
    else
      l.logFrom sprint keyvals (i + 2)
  else
    callLogger .miss l.Miss keyvals
termination_by keyvals.length - i
decreasing_by all_goals omega

/-- The method `FilterLogger.Log` (logger.go:21-30): the loop started at `i := 0`. -/
def FilterLogger.Log {α ε : Type} (l : FilterLogger α ε) (sprint : α → String)
    (keyvals : List α) : LogResult α ε :=
  l.logFrom sprint keyvals 0

/-- The loop of `FilterLogger.Log` read on the part of the record not yet
visited, `keyvals[i:]`: the same function as `logFrom`, by recursion on that
suffix (see `logFrom_eq_scan`). -/
def FilterLogger.scan {α ε : Type} (l : FilterLogger α ε) (sprint : α → String)
    (keyvals : List α) : List α → LogResult α ε
  | [] => callLogger .miss l.Miss keyvals
  | [k] =>
    if sprint k = l.Key then ⟨[], .panicked .indexOutOfRange⟩
    else callLogger .miss l.Miss keyvals
  | k :: v :: rest =>
    if sprint k = l.Key then
      if sprint v = l.Value then callLogger .hit l.Hit keyvals
      else l.scan sprint keyvals rest
    else l.scan sprint keyvals rest

/-- The complete key/value pairs of a record: entries `2j` and `2j+1`. An
unpaired last entry is left out. -/
def pairs {α : Type} : List α → List (α × α)
  | k :: v :: rest => (k, v) :: pairs rest
  | _ => []

/-- The unpaired last entry of a record with an odd number of entries. -/
def unpaired {α : Type} : List α → Option α
  | [] => none
  | [k] => some k
  | _ :: _ :: rest => unpaired rest

/-- The pair at entries `2j`, `2j+1` of the record exists, its key prints equal
to `Key` and its value prints equal to `Value`. -/
def MatchAt {α ε : Type} (l : FilterLogger α ε) (sprint : α → String) (keyvals : List α)
    (j : Nat) : Prop :=
  ∃ k v, keyvals[2 * j]? = some k ∧ keyvals[2 * j + 1]? = some v ∧
    sprint k = l.Key ∧ sprint v = l.Value

/-- The record contains a complete pair with key `Key` and value `Value`. -/
def HasMatch {α ε : Type} (l : FilterLogger α ε) (sprint : α → String) (keyvals : List α) :
    Prop :=
  ∃ j, MatchAt l sprint keyvals j

/-- The record has an odd number of entries and its last entry prints equal to
`Key`. -/
def DanglingKey {α ε : Type} (l : FilterLogger α ε) (sprint : α → String)
    (keyvals : List α) : Prop :=
  keyvals.length % 2 = 1 ∧ ∃ k, keyvals.getLast? = some k ∧ sprint k = l.Key

/-- The whole record went to `Hit` (here `hit`), once, and its error was returned. -/
def forwardedHit {α ε : Type} (hit : Logger α ε) (keyvals : List α) : LogResult α ε :=
  ⟨[(.hit, keyvals)], .returned (hit keyvals)⟩

/-- The whole record went to `Miss` (here `miss`), once, and its error was returned. -/
def forwardedMiss {α ε : Type} (miss : Logger α ε) (keyvals : List α) : LogResult α ε :=
  ⟨[(.miss, keyvals)], .returned (miss keyvals)⟩

/-- A filter with `Key = "k"`, `Value = "v"` over string entries, whose wrapped
loggers are present and both return a nil error. -/
def exampleFilter : FilterLogger String (Option String) :=
  ⟨some (fun _ => none), some (fun _ => none), "k", "v"⟩

/-- The struct literal `FilterLogger{Key: "k", Value: "v"}`: `Hit` and `Miss` nil. -/
def nilFilter : FilterLogger String (Option String) :=
  ⟨none, none, "k", "v"⟩

/-- The struct literal `FilterLogger{Miss: m, Key: "k", Value: "v"}`: `Hit` nil. -/
def nilHitFilter : FilterLogger String (Option String) :=
  ⟨none, some (fun _ => none), "k", "v"⟩

/-! ## cmd/server/main.go -/

namespace Server

/-- The dynamic value of the `log.Logger` held by the `log.SwapLogger`: one of
the plain loggers of `main` or a `*diagnostic.FilterLogger`. -/
inductive LoggerValue (α ε : Type) where
  | plain (lg : Logger α ε)
  | filter (l : FilterLogger α ε)

/-- The `log.SwapLogger` of `main` (main.go:35): the logger in effect, and the
number of `Swap` calls made on it so far. -/
structure SwapLogger (α ε : Type) where
  logger : LoggerValue α ε
  swaps : Nat

/-- The call `logger.Swap(lg)`. -/
def SwapLogger.Swap {α ε : Type} (s : SwapLogger α ε) (lg : LoggerValue α ε) :
    SwapLogger α ε :=
  ⟨lg, s.swaps + 1⟩

/-- The `http.ResponseWriter` of one request: the status code sent (none while
the header is unwritten) and the payloads of the `Write` calls, in order. -/
structure ResponseWriter where
  status : Option Nat
  body : List String
  deriving DecidableEq, Repr

/-- A response writer on which nothing was written yet. -/
def ResponseWriter.fresh : ResponseWriter := ⟨none, []⟩

/-- The call `w.WriteHeader(code)`: only the first header written counts. -/
def ResponseWriter.WriteHeader (w : ResponseWriter) (code : Nat) : ResponseWriter :=
  match w.status with
  | some _ => w
  | none => { w with status := some code }

/-- The call `w.Write(b)`: writes the header with status 200 when none was
written, then appends the payload. -/
def ResponseWriter.Write (w : ResponseWriter) (b : String) : ResponseWriter :=
  let w := w.WriteHeader 200
  { w with body := w.body ++ [b] }

/-- What the `/logging` handler reads of its `*http.Request`: whether
`r.ParseForm()` returned an error, and what `r.Form.Get` returns afterwards for
`logger`, `key` and `value` (the empty string for an absent field). -/
structure Request where
  parseFormFailed : Bool
  logger : String
  key : String
  value : String
  deriving DecidableEq, Repr

/-- The `/logging` handler (main.go:58-87). After a failed `ParseForm` the
handler writes status 400 and "form parse failed" and, having no `return`
there, goes on to the `switch`. -/
def loggingHandler {α ε : Type} (baseLogger standardLogger : Logger α ε) (r : Request)
    (logger : SwapLogger α ε) (w : ResponseWriter) : SwapLogger α ε × ResponseWriter :=
  let w := if r.parseFormFailed then (w.WriteHeader 400).Write "form parse failed" else w
  if r.logger = "standard" then
    (logger.Swap (.plain standardLogger), w.Write "standard logger enabled")
  else if r.logger = "debug" then
    let k := r.key
    let v := r.value
    if k = "" ∨ v = "" then
      (logger.Swap (.plain baseLogger), w.Write "debug logger enabled")
    else
      (logger.Swap (.filter ⟨some baseLogger, some standardLogger, k, v⟩),
        w.Write ("filtered debug logger enabled: " ++ k ++ "=" ++ v))
  else
    (logger, (w.WriteHeader 400).Write "unknown logger")

/-- An `error` value of `main`, compared by identity: the package variable
`errInterrupt` (main.go:24) or any other error. A nil error is `none`. -/
inductive GoError where
  | errInterrupt
  | other (msg : String)
  deriving DecidableEq, Repr

/-- How the call `ff.Parse(fs, os.Args[1:], ...)` (main.go:45-49) ends. The flag
set is built with `flag.ExitOnError` (main.go:38), so an error of the
command-line pass is not returned: the flag package ends the process itself. -/
inductive ParseOutcome where
  /-- The value `ff.Parse` returned: nil, or an error (environment, config file). -/
  | returned (err : Option GoError)
  /-- The command line asked for `-h` or `-help`: the flag set calls `os.Exit(0)`. -/
  | exitedHelp
  /-- The command line failed to parse otherwise: the flag set calls `os.Exit(2)`. -/
  | exitedBadFlag
  deriving DecidableEq, Repr

/-- What a run of the program amounts to: the exit code of the process, whether
it was passed to `os.Exit` by the deferred call of `main` (main.go:30) rather
than by the flag set, and whether `g.Run()` was reached. -/
structure MainResult where
  exitCode : Nat
  deferredExit : Bool
  groupRan : Bool
  deriving DecidableEq, Repr

/-- The exit-code logic of `main` (main.go:29-30, 38, 45-53, 141-149). `parse` is
how `ff.Parse` ends, `runErr` what `g.Run()` returns if it is reached. When the
flag set exits inside `ff.Parse`, neither main.go:50 nor the deferred
`os.Exit(exitCode)` runs. -/
def main (parse : ParseOutcome) (runErr : Option GoError) : MainResult :=
  let exitCode := 1
  match parse with
  | .exitedHelp => ⟨0, false, false⟩
  | .exitedBadFlag => ⟨2, false, false⟩
  | .returned (some _) => ⟨exitCode, true, false⟩
  | .returned none =>
    let err := runErr
    if err = some GoError.errInterrupt then ⟨0, true, true⟩ else ⟨exitCode, true, true⟩

end Server

/-! ## Helper lemmas for logger.go -/

/-- The pairs of a record contain a pair with a property exactly when the
entries at some indices `2j`, `2j+1` have it. -/
theorem exists_mem_pairs_iff {α : Type} (P : α → α → Prop) :
    ∀ keyvals : List α, (∃ p ∈ pairs keyvals, P p.1 p.2) ↔
      ∃ j k v, keyvals[2 * j]? = some k ∧ keyvals[2 * j + 1]? = some v ∧ P k v
  | [] => by simp [pairs]
  | [a] => by
    simp only [pairs, List.not_mem_nil, false_and, exists_false, false_iff]
    rintro ⟨j, k, v, _, h1, _⟩
    simp at h1
  | a :: b :: rest => by
    have ih := exists_mem_pairs_iff P rest
    constructor
    · rintro ⟨p, hp, hP⟩
      simp only [pairs, List.mem_cons] at hp
      rcases hp with rfl | hp
      · exact ⟨0, a, b, by simp, by simp, hP⟩
      · obtain ⟨j, k, v, h0, h1, hkv⟩ := ih.mp ⟨p, hp, hP⟩
        refine ⟨j + 1, k, v, ?_, ?_, hkv⟩
        · rw [show 2 * (j + 1) = 2 * j + 1 + 1 by ring]
          simpa using h0
        · rw [show 2 * (j + 1) + 1 = 2 * j + 1 + 1 + 1 by ring]
          simpa using h1
    · rintro ⟨j, k, v, h0, h1, hkv⟩
      cases j with
      | zero =>
        simp at h0 h1
        subst h0 h1
        exact ⟨(a, b), by simp [pairs], hkv⟩
      | succ j =>
        rw [show 2 * (j + 1) = 2 * j + 1 + 1 by ring] at h0
        rw [show 2 * (j + 1) + 1 = 2 * j + 1 + 1 + 1 by ring] at h1
        simp only [List.getElem?_cons_succ] at h0 h1
        obtain ⟨p, hp, hP⟩ := ih.mpr ⟨j, k, v, h0, h1, hkv⟩
        exact ⟨p, by simp [pairs, hp], hP⟩

/-- The property `HasMatch` read on the list of pairs. -/
theorem hasMatch_iff_pairs {α ε : Type} (l : FilterLogger α ε) (sprint : α → String)
    (keyvals : List α) :
    HasMatch l sprint keyvals ↔
      ∃ p ∈ pairs keyvals, sprint p.1 = l.Key ∧ sprint p.2 = l.Value :=
  (exists_mem_pairs_iff (fun k v => sprint k = l.Key ∧ sprint v = l.Value) keyvals).symm

/-- The unpaired entry is the last entry of a record of odd length. -/
theorem unpaired_eq_some_iff {α : Type} (k : α) :
    ∀ keyvals : List α,
      unpaired keyvals = some k ↔ keyvals.length % 2 = 1 ∧ keyvals.getLast? = some k
  | [] => by simp [unpaired]
  | [a] => by simp [unpaired]
  | a :: b :: rest => by
    have ih := unpaired_eq_some_iff k rest
    cases rest with
    | nil => simp [unpaired]
    | cons c rest =>
      simp only [unpaired, List.length_cons] at ih ⊢
      rw [ih]
      have e : (rest.length + 1 + 1 + 1) % 2 = (rest.length + 1) % 2 := by omega
      simp [List.getLast?_cons_cons, e]

/-- The property `DanglingKey` read on `unpaired`. -/
theorem danglingKey_iff_unpaired {α ε : Type} (l : FilterLogger α ε) (sprint : α → String)
    (keyvals : List α) :
    DanglingKey l sprint keyvals ↔ ∃ k, unpaired keyvals = some k ∧ sprint k = l.Key := by
  unfold DanglingKey
  constructor
  · rintro ⟨hodd, k, hk, hs⟩
    exact ⟨k, (unpaired_eq_some_iff k keyvals).mpr ⟨hodd, hk⟩, hs⟩
  · rintro ⟨k, hk, hs⟩
    obtain ⟨hodd, hl⟩ := (unpaired_eq_some_iff k keyvals).mp hk
    exact ⟨hodd, k, hl, hs⟩

/-- The loop from index `i` is the scan of the suffix `keyvals[i:]`. -/
theorem logFrom_eq_scan {α ε : Type} (l : FilterLogger α ε) (sprint : α → String)
    (keyvals : List α) :
    ∀ (n i : Nat), keyvals.length - i ≤ n →
      l.logFrom sprint keyvals i = l.scan sprint keyvals (keyvals.drop i) := by
  intro n
  induction n with
  | zero =>
    intro i hi
    have hlen : keyvals.length ≤ i := by omega
    rw [FilterLogger.logFrom, dif_neg (by omega), List.drop_of_length_le hlen]
    rfl
  | succ n ih =>
    intro i hi
    by_cases h : i < keyvals.length
    · rw [FilterLogger.logFrom, dif_pos h]
      by_cases h1 : i + 1 < keyvals.length
      · have e : keyvals.drop i
            = keyvals.get ⟨i, h⟩ :: keyvals.get ⟨i + 1, h1⟩ :: keyvals.drop (i + 2) := by
          rw [List.drop_eq_getElem_cons h, List.drop_eq_getElem_cons h1]
          rfl
        rw [e, dif_pos h1, ih (i + 2) (by omega)]
        rfl
      · have e : keyvals.drop i = [keyvals.get ⟨i, h⟩] := by
          rw [List.drop_eq_getElem_cons h, List.drop_of_length_le (by omega)]
          rfl
        rw [e, dif_neg h1, ih (i + 2) (by omega), List.drop_of_length_le (by omega)]
        simp only [FilterLogger.scan]
    · have hlen : keyvals.length ≤ i := by omega
      rw [FilterLogger.logFrom, dif_neg h, List.drop_of_length_le hlen]
      rfl

/-- The method `Log` is the scan of the whole record. -/
theorem log_eq_scan {α ε : Type} (l : FilterLogger α ε) (sprint : α → String)
    (keyvals : List α) :
    l.Log sprint keyvals = l.scan sprint keyvals keyvals := by
  have h := logFrom_eq_scan l sprint keyvals keyvals.length 0 (by omega)
  simpa [FilterLogger.Log] using h

/-- The scan of a suffix that holds a matching pair ends in the call of `Hit`. -/
theorem scan_of_match {α ε : Type} (l : FilterLogger α ε) (sprint : α → String)
    (keyvals : List α) :
    ∀ s : List α, (∃ p ∈ pairs s, sprint p.1 = l.Key ∧ sprint p.2 = l.Value) →
      l.scan sprint keyvals s = callLogger .hit l.Hit keyvals
  | [] => by simp [pairs]
  | [a] => by simp [pairs]
  | a :: b :: rest => by
    rintro ⟨p, hp, hk, hv⟩
    simp only [pairs, List.mem_cons] at hp
    by_cases hab : sprint a = l.Key ∧ sprint b = l.Value
    · simp [FilterLogger.scan, hab.1, hab.2]
    · have hrest : ∃ p ∈ pairs rest, sprint p.1 = l.Key ∧ sprint p.2 = l.Value := by
        rcases hp with rfl | hp
        · exact absurd ⟨hk, hv⟩ hab
        · exact ⟨p, hp, hk, hv⟩
      have ih := scan_of_match l sprint keyvals rest hrest
      by_cases ha : sprint a = l.Key
      · have hb : ¬ sprint b = l.Value := fun hb => hab ⟨ha, hb⟩
        simp [FilterLogger.scan, ha, hb, ih]
      · simp [FilterLogger.scan, ha, ih]

/-- The scan of a suffix without a matching pair ends at the unpaired entry: in
the panic when it prints equal to `Key`, in the call of `Miss` otherwise. -/
theorem scan_of_no_match {α ε : Type} (l : FilterLogger α ε) (sprint : α → String)
    (keyvals : List α) :
    ∀ s : List α, (¬ ∃ p ∈ pairs s, sprint p.1 = l.Key ∧ sprint p.2 = l.Value) →
      ((∃ k, unpaired s = some k ∧ sprint k = l.Key) →
        l.scan sprint keyvals s = ⟨[], .panicked .indexOutOfRange⟩) ∧
      ((¬ ∃ k, unpaired s = some k ∧ sprint k = l.Key) →
        l.scan sprint keyvals s = callLogger .miss l.Miss keyvals)
  | [] => by simp [unpaired, FilterLogger.scan]
  | [a] => by
    intro _
    by_cases ha : sprint a = l.Key <;> simp [unpaired, FilterLogger.scan, ha]
  | a :: b :: rest => by
    intro hno
    have hab : ¬ (sprint a = l.Key ∧ sprint b = l.Value) := fun h =>
      hno ⟨(a, b), by simp [pairs], h⟩
    have hrest : ¬ ∃ p ∈ pairs rest, sprint p.1 = l.Key ∧ sprint p.2 = l.Value := by
      rintro ⟨p, hp, h⟩
      exact hno ⟨p, by simp [pairs, hp], h⟩
    have ih := scan_of_no_match l sprint keyvals rest hrest
    have step : l.scan sprint keyvals (a :: b :: rest) = l.scan sprint keyvals rest := by
      by_cases ha : sprint a = l.Key
      · have hb : ¬ sprint b = l.Value := fun hb => hab ⟨ha, hb⟩
        simp [FilterLogger.scan, ha, hb]
      · simp [FilterLogger.scan, ha]
    rw [step]
    simpa [unpaired] using ih

/-- `Log` on a record with a matching pair: the call of `Hit`. -/
theorem log_of_match {α ε : Type} (l : FilterLogger α ε) (sprint : α → String)
    (keyvals : List α) (h : HasMatch l sprint keyvals) :
    l.Log sprint keyvals = callLogger .hit l.Hit keyvals := by
  rw [log_eq_scan]
  exact scan_of_match l sprint keyvals keyvals ((hasMatch_iff_pairs l sprint keyvals).mp h)

/-- `Log` on a record without a matching pair whose last entry is an unpaired
`Key`: the index-out-of-range panic. -/
theorem log_of_dangling {α ε : Type} (l : FilterLogger α ε) (sprint : α → String)
    (keyvals : List α) (h : ¬ HasMatch l sprint keyvals) (hd : DanglingKey l sprint keyvals) :
    l.Log sprint keyvals = ⟨[], .panicked .indexOutOfRange⟩ := by
  rw [log_eq_scan]
  exact (scan_of_no_match l sprint keyvals keyvals
    (fun hp => h ((hasMatch_iff_pairs l sprint keyvals).mpr hp))).1
    ((danglingKey_iff_unpaired l sprint keyvals).mp hd)

/-- `Log` on a record without a matching pair and without an unpaired `Key`:
the call of `Miss`. -/
theorem log_of_miss {α ε : Type} (l : FilterLogger α ε) (sprint : α → String)
    (keyvals : List α) (h : ¬ HasMatch l sprint keyvals)
    (hd : ¬ DanglingKey l sprint keyvals) :
    l.Log sprint keyvals = callLogger .miss l.Miss keyvals := by
  rw [log_eq_scan]
  exact (scan_of_no_match l sprint keyvals keyvals
    (fun hp => h ((hasMatch_iff_pairs l sprint keyvals).mpr hp))).2
    (fun hu => hd ((danglingKey_iff_unpaired l sprint keyvals).mpr hu))

/-- A record with an even number of entries has no unpaired `Key`. -/
theorem not_danglingKey_of_even {α ε : Type} (l : FilterLogger α ε) (sprint : α → String)
    (keyvals : List α) (h : keyvals.length % 2 = 0) : ¬ DanglingKey l sprint keyvals := by
  rintro ⟨hodd, _⟩
  omega

/-- A call forwarded to `Hit` is not a call forwarded to `Miss`. -/
theorem forwardedHit_ne_forwardedMiss {α ε : Type} (hit miss : Logger α ε) (keyvals : List α) :
    forwardedHit hit keyvals ≠ forwardedMiss miss keyvals := by
  intro h
  have hc := congrArg LogResult.calls h
  simp [forwardedHit, forwardedMiss] at hc

/-- With both wrapped loggers present, `Log` on a record that is not cut off at
an unpaired `Key` forwards the record to `Hit` or to `Miss`, by `HasMatch`. -/
theorem log_forwards {α ε : Type} (l : FilterLogger α ε) (sprint : α → String)
    (keyvals : List α) (hit miss : Logger α ε) (hHit : l.Hit = some hit)
    (hMiss : l.Miss = some miss)
    (hsafe : HasMatch l sprint keyvals ∨ ¬ DanglingKey l sprint keyvals) :
    (HasMatch l sprint keyvals → l.Log sprint keyvals = forwardedHit hit keyvals) ∧
    (¬ HasMatch l sprint keyvals → l.Log sprint keyvals = forwardedMiss miss keyvals) := by
  constructor
  · intro h
    rw [log_of_match l sprint keyvals h, hHit]
    rfl
  · intro h
    have hd : ¬ DanglingKey l sprint keyvals := hsafe.resolve_left h
    rw [log_of_miss l sprint keyvals h hd, hMiss]
    rfl

/-! ## Claims about logger.go -/

/-- C1: for a FilterLogger with non-nil Hit and Miss and a record with an even
number of entries, Log forwards the whole record, unchanged, exactly once to
exactly one of Hit and Miss and returns that logger's error: to Hit exactly
when some pair of the record (entries `2j`, `2j+1`) has a key printing equal to
Key and a value printing equal to Value, to Miss exactly when no pair has. -/
theorem C1_log_even_routes {α ε : Type} (l : FilterLogger α ε) (sprint : α → String)
    (keyvals : List α) (hit miss : Logger α ε) (hHit : l.Hit = some hit)
    (hMiss : l.Miss = some miss) (heven : keyvals.length % 2 = 0) :
    (l.Log sprint keyvals = forwardedHit hit keyvals ∨
      l.Log sprint keyvals = forwardedMiss miss keyvals) ∧
    (l.Log sprint keyvals = forwardedHit hit keyvals ↔ HasMatch l sprint keyvals) ∧
    (l.Log sprint keyvals = forwardedMiss miss keyvals ↔ ¬ HasMatch l sprint keyvals) := by
  have hf := log_forwards l sprint keyvals hit miss hHit hMiss
    (Or.inr (not_danglingKey_of_even l sprint keyvals heven))
  by_cases h : HasMatch l sprint keyvals
  · have e := hf.1 h
    refine ⟨Or.inl e, ⟨fun _ => h, fun _ => e⟩, ⟨fun e2 => ?_, fun h2 => absurd h h2⟩⟩
    exact absurd (e.symm.trans e2) (forwardedHit_ne_forwardedMiss hit miss keyvals)
  · have e := hf.2 h
    refine ⟨Or.inr e, ⟨fun e2 => ?_, fun h2 => absurd h2 h⟩, ⟨fun _ => h, fun _ => e⟩⟩
    exact absurd (e2.symm.trans e) (forwardedHit_ne_forwardedMiss hit miss keyvals)

/-- Witness of C1 at the record `["a", "b", "k", "v"]`, which goes to Hit. -/
theorem C1_log_even_routes_witness :
    exampleFilter.Log id ["a", "b", "k", "v"]
      = forwardedHit (fun _ => none) ["a", "b", "k", "v"] :=
  ((C1_log_even_routes exampleFilter id ["a", "b", "k", "v"] (fun _ => none) (fun _ => none)
    rfl rfl (by decide)).2.1).mpr ⟨1, "k", "v", rfl, rfl, rfl, rfl⟩

/-- C2, refuted as stated: the record `["msg"]` has an odd number of entries,
and Log forwards it to Miss and returns the nil error of Miss, so Miss is called
and no error is reported. -/
theorem C2_counterexample_odd_record_forwarded :
    ["msg"].length % 2 = 1 ∧
    (exampleFilter.Log id ["msg"]).calls = [(Target.miss, ["msg"])] ∧
    (exampleFilter.Log id ["msg"]).calls ≠ [] ∧
    (exampleFilter.Log id ["msg"]).outcome = Outcome.returned none := by
  rw [log_eq_scan]
  decide

/-- C2, amended: for a FilterLogger with non-nil Hit and Miss and a record with
an odd number of entries that has a matching pair or whose unpaired last entry
does not print equal to Key, Log does not panic and reports no error of its
own: it forwards the whole record exactly once, to Hit when a complete pair
matches Key and Value and to Miss otherwise, and returns that logger's error. -/
theorem C2_log_odd_forwards {α ε : Type} (l : FilterLogger α ε) (sprint : α → String)
    (keyvals : List α) (hit miss : Logger α ε) (hHit : l.Hit = some hit)
    (hMiss : l.Miss = some miss) (_hodd : keyvals.length % 2 = 1)
    (hsafe : HasMatch l sprint keyvals ∨
      ¬ ∃ k, keyvals.getLast? = some k ∧ sprint k = l.Key) :
    (HasMatch l sprint keyvals → l.Log sprint keyvals = forwardedHit hit keyvals) ∧
    (¬ HasMatch l sprint keyvals → l.Log sprint keyvals = forwardedMiss miss keyvals) := by
  apply log_forwards l sprint keyvals hit miss hHit hMiss
  rcases hsafe with h | h
  · exact Or.inl h
  · exact Or.inr (fun hd => h hd.2)

/-- Witness of C2 (amended) at the record `["a", "b", "c"]`, which goes to Miss. -/
theorem C2_log_odd_forwards_witness :
    exampleFilter.Log id ["a", "b", "c"] = forwardedMiss (fun _ => none) ["a", "b", "c"] :=
  (C2_log_odd_forwards exampleFilter id ["a", "b", "c"] (fun _ => none) (fun _ => none)
    rfl rfl (by decide) (Or.inr (by decide))).2
    (fun h => absurd ((hasMatch_iff_pairs exampleFilter id ["a", "b", "c"]).mp h) (by decide))

/-- C3, refuted as stated: in the record `["k", "other", "k", "v"]` the first
pair with key Key has the value "other", different from Value, and Log forwards
the record to Hit, not to Miss, because the second pair matches. -/
theorem C3_counterexample_later_pair_hits :
    ["k", "other", "k", "v"].length % 2 = 0 ∧
    exampleFilter.Log id ["k", "other", "k", "v"]
      = ⟨[(Target.hit, ["k", "other", "k", "v"])], Outcome.returned none⟩ ∧
    exampleFilter.Log id ["k", "other", "k", "v"]
      ≠ forwardedMiss (fun _ => none) ["k", "other", "k", "v"] := by
  rw [log_eq_scan]
  decide

/-- C3, amended: every pair of the record can decide the route, not only the
first one with key Key. For a FilterLogger with non-nil Hit and Miss and an
even-length record whose first pair with key Key (pair `j0`) has a value
different from Value, Log forwards the record to Hit when a later pair has key
Key and value Value, and to Miss when no later pair has. -/
theorem C3_log_later_pair_decides {α ε : Type} (l : FilterLogger α ε) (sprint : α → String)
    (keyvals : List α) (hit miss : Logger α ε) (hHit : l.Hit = some hit)
    (hMiss : l.Miss = some miss) (heven : keyvals.length % 2 = 0)
    (j0 : Nat) (k0 v0 : α) (hk : keyvals[2 * j0]? = some k0)
    (hv : keyvals[2 * j0 + 1]? = some v0) (_hkey : sprint k0 = l.Key)
    (hval : sprint v0 ≠ l.Value)
    (hfirst : ∀ j, j < j0 → ∀ k, keyvals[2 * j]? = some k → sprint k ≠ l.Key) :
    ((∃ j, j0 < j ∧ MatchAt l sprint keyvals j) →
      l.Log sprint keyvals = forwardedHit hit keyvals) ∧
    ((¬ ∃ j, j0 < j ∧ MatchAt l sprint keyvals j) →
      l.Log sprint keyvals = forwardedMiss miss keyvals) := by
  have hf := log_forwards l sprint keyvals hit miss hHit hMiss
    (Or.inr (not_danglingKey_of_even l sprint keyvals heven))
  constructor
  · rintro ⟨j, _, hj⟩
    exact hf.1 ⟨j, hj⟩
  · intro hno
    apply hf.2
    rintro ⟨j, k, v, hjk, hjv, hsk, hsv⟩
    rcases Nat.lt_trichotomy j j0 with hlt | heq | hgt
    · exact hfirst j hlt k hjk hsk
    · subst heq
      rw [hv] at hjv
      cases hjv
      exact hval hsv
    · exact hno ⟨j, hgt, k, v, hjk, hjv, hsk, hsv⟩

/-- Witness of C3 (amended) at the record `["k", "other", "k", "v"]` with
`j0 = 0`: the later pair sends the record to Hit. -/
theorem C3_log_later_pair_decides_witness :
    exampleFilter.Log id ["k", "other", "k", "v"]
      = forwardedHit (fun _ => none) ["k", "other", "k", "v"] :=
  (C3_log_later_pair_decides exampleFilter id ["k", "other", "k", "v"] (fun _ => none)
    (fun _ => none) rfl rfl (by decide) 0 "k" "other" rfl rfl rfl (by decide)
    (fun j hj => absurd hj (Nat.not_lt_zero j))).1
    ⟨1, by decide, "k", "v", rfl, rfl, rfl, rfl⟩

/-- C4, refuted as stated: the struct literal with nil Hit and nil Miss is a
FilterLogger value, and its missing loggers show only when Log is called: Log
on the record `["k", "v"]` panics with a nil dereference. -/
theorem C4_counterexample_nil_logger_found_at_log :
    nilFilter.Hit.isNone = true ∧ nilFilter.Miss.isNone = true ∧
    nilFilter.Log id ["k", "v"] = ⟨[], Outcome.panicked Panic.nilDereference⟩ := by
  rw [log_eq_scan]
  decide

/-- C4, amended: a FilterLogger with a nil Hit or Miss is an ordinary value, and
the missing logger is found when Log routes a record to it. For a record with
an even number of entries, Log panics with a nil dereference, calling no logger,
when the record has a matching pair and Hit is nil, or has none and Miss is nil;
when the logger it routes to is present, Log forwards the record to it and
returns its error, whether or not the other logger is nil. -/
theorem C4_nil_logger_found_at_log {α ε : Type} (l : FilterLogger α ε) (sprint : α → String)
    (keyvals : List α) (heven : keyvals.length % 2 = 0) :
    (l.Hit = none → HasMatch l sprint keyvals →
      l.Log sprint keyvals = ⟨[], .panicked .nilDereference⟩) ∧
    (l.Miss = none → ¬ HasMatch l sprint keyvals →
      l.Log sprint keyvals = ⟨[], .panicked .nilDereference⟩) ∧
    (∀ hit, l.Hit = some hit → HasMatch l sprint keyvals →
      l.Log sprint keyvals = forwardedHit hit keyvals) ∧
    (∀ miss, l.Miss = some miss → ¬ HasMatch l sprint keyvals →
      l.Log sprint keyvals = forwardedMiss miss keyvals) := by
  have hd := not_danglingKey_of_even l sprint keyvals heven
  refine ⟨?_, ?_, ?_, ?_⟩
  · intro hn h
    rw [log_of_match l sprint keyvals h, hn]
    rfl
  · intro hn h
    rw [log_of_miss l sprint keyvals h hd, hn]
    rfl
  · intro hit hs h
    rw [log_of_match l sprint keyvals h, hs]
    rfl
  · intro miss hs h
    rw [log_of_miss l sprint keyvals h hd, hs]
    rfl

/-- Witness of C4 (amended): with Hit nil and Miss present, the record
`["k", "v"]` makes Log panic. -/
theorem C4_nil_logger_found_at_log_witness :
    nilHitFilter.Log id ["k", "v"] = ⟨[], Outcome.panicked Panic.nilDereference⟩ :=
  (C4_nil_logger_found_at_log nilHitFilter id ["k", "v"] (by decide)).1 rfl
    ⟨0, "k", "v", rfl, rfl, rfl, rfl⟩

/-- C5: Log panics if the wrapped loggers are nil. For a FilterLogger whose Hit
and Miss are both nil and for every record, Log does not return: it panics
(with a nil dereference, or out of range at an unpaired Key) and calls no
logger. -/
theorem C5_log_nil_loggers_panics {α ε : Type} (l : FilterLogger α ε) (sprint : α → String)
    (keyvals : List α) (hHit : l.Hit = none) (hMiss : l.Miss = none) :
    (∃ p, l.Log sprint keyvals = ⟨[], .panicked p⟩) ∧
    (∀ e, (l.Log sprint keyvals).outcome ≠ .returned e) := by
  have key : ∃ p, l.Log sprint keyvals = ⟨[], .panicked p⟩ := by
    by_cases h : HasMatch l sprint keyvals
    · exact ⟨.nilDereference, by rw [log_of_match l sprint keyvals h, hHit]; rfl⟩
    · by_cases hd : DanglingKey l sprint keyvals
      · exact ⟨.indexOutOfRange, log_of_dangling l sprint keyvals h hd⟩
      · exact ⟨.nilDereference, by rw [log_of_miss l sprint keyvals h hd, hMiss]; rfl⟩
  refine ⟨key, ?_⟩
  obtain ⟨p, hp⟩ := key
  intro e he
  rw [hp] at he
  cases he

/-- Witness of C5 at the empty record. -/
theorem C5_log_nil_loggers_panics_witness :
    ∃ p, nilFilter.Log id ([] : List String) = ⟨[], Outcome.panicked p⟩ :=
  (C5_log_nil_loggers_panics nilFilter id [] rfl rfl).1

/-- C10: for a FilterLogger with non-nil Hit and Miss and every record, Log
panics exactly when the record has an odd number of entries, its last entry
prints equal to Key and no complete pair has key Key and value Value, and the
panic is then the index out of range; every other record with an odd number of
entries is forwarded whole, to Hit when some complete pair matches Key and
Value and to Miss otherwise. -/
theorem C10_log_panics_iff_dangling_key {α ε : Type} (l : FilterLogger α ε)
    (sprint : α → String) (keyvals : List α) (hit miss : Logger α ε)
    (hHit : l.Hit = some hit) (hMiss : l.Miss = some miss) :
    ((∃ p, (l.Log sprint keyvals).outcome = .panicked p) ↔
      (keyvals.length % 2 = 1 ∧ (∃ k, keyvals.getLast? = some k ∧ sprint k = l.Key) ∧
        ¬ HasMatch l sprint keyvals)) ∧
    (∀ p, (l.Log sprint keyvals).outcome = .panicked p →
      l.Log sprint keyvals = ⟨[], .panicked .indexOutOfRange⟩) ∧
    (keyvals.length % 2 = 1 →
      ¬ ((∃ k, keyvals.getLast? = some k ∧ sprint k = l.Key) ∧ ¬ HasMatch l sprint keyvals) →
      (HasMatch l sprint keyvals → l.Log sprint keyvals = forwardedHit hit keyvals) ∧
      (¬ HasMatch l sprint keyvals → l.Log sprint keyvals = forwardedMiss miss keyvals)) := by
  by_cases hm : HasMatch l sprint keyvals
  · have e := (log_forwards l sprint keyvals hit miss hHit hMiss (Or.inl hm)).1 hm
    refine ⟨⟨?_, fun h => absurd hm h.2.2⟩, ?_, fun _ _ => ⟨fun _ => e, fun h => absurd hm h⟩⟩
    · rintro ⟨p, hp⟩
      rw [e] at hp
      cases hp
    · intro p hp
      rw [e] at hp
      cases hp
  · by_cases hd : DanglingKey l sprint keyvals
    · have e := log_of_dangling l sprint keyvals hm hd
      refine ⟨⟨fun _ => ⟨hd.1, hd.2, hm⟩, fun _ => ⟨.indexOutOfRange, by rw [e]⟩⟩,
        fun _ _ => e, fun _ hn => absurd ⟨hd.2, hm⟩ hn⟩
    · have e := (log_forwards l sprint keyvals hit miss hHit hMiss (Or.inr hd)).2 hm
      refine ⟨⟨?_, fun h => absurd ⟨h.1, h.2.1⟩ hd⟩, ?_,
        fun _ _ => ⟨fun h => absurd h hm, fun _ => e⟩⟩
      · rintro ⟨p, hp⟩
        rw [e] at hp
        cases hp
      · intro p hp
        rw [e] at hp
        cases hp

/-- Witness of C10 at the record `["a", "b", "k"]`, whose unpaired last entry is
the Key: Log panics. -/
theorem C10_log_panics_iff_dangling_key_witness :
    ∃ p, (exampleFilter.Log id ["a", "b", "k"]).outcome = Outcome.panicked p :=
  ((C10_log_panics_iff_dangling_key exampleFilter id ["a", "b", "k"] (fun _ => none)
    (fun _ => none) rfl rfl).1).mpr
    ⟨by decide, ⟨"k", rfl, rfl⟩,
      fun h => absurd ((hasMatch_iff_pairs exampleFilter id ["a", "b", "k"]).mp h) (by decide)⟩

/-! ## Claims about cmd/server/main.go -/

namespace Server

/-- C6: for a `/logging` request whose form parsed, the handler does this to the
active logger: `logger=standard` swaps in the severity-filtered logger;
`logger=debug` with an empty key or an empty value swaps in the base logger;
`logger=debug` with key and value both non-empty swaps in a new
`FilterLogger{Hit: base, Miss: severity-filtered, Key: key, Value: value}`; any
other `logger` answers 400 "unknown logger" and makes no swap, so the active
logger stays what it was. Each swapping case makes exactly one swap. -/
theorem C6_logging_handler_mapping {α ε : Type} (baseLogger standardLogger : Logger α ε)
    (r : Request) (logger : SwapLogger α ε) (hparsed : r.parseFormFailed = false) :
    (r.logger = "standard" →
      loggingHandler baseLogger standardLogger r logger ResponseWriter.fresh
        = (⟨.plain standardLogger, logger.swaps + 1⟩,
            ⟨some 200, ["standard logger enabled"]⟩)) ∧
    (r.logger = "debug" → (r.key = "" ∨ r.value = "") →
      loggingHandler baseLogger standardLogger r logger ResponseWriter.fresh
        = (⟨.plain baseLogger, logger.swaps + 1⟩, ⟨some 200, ["debug logger enabled"]⟩)) ∧
    (r.logger = "debug" → r.key ≠ "" → r.value ≠ "" →
      loggingHandler baseLogger standardLogger r logger ResponseWriter.fresh
        = (⟨.filter ⟨some baseLogger, some standardLogger, r.key, r.value⟩, logger.swaps + 1⟩,
            ⟨some 200, ["filtered debug logger enabled: " ++ r.key ++ "=" ++ r.value]⟩)) ∧
    (r.logger ≠ "standard" → r.logger ≠ "debug" →
      loggingHandler baseLogger standardLogger r logger ResponseWriter.fresh
        = (logger, ⟨some 400, ["unknown logger"]⟩)) := by
  have hdebug : ¬ ("debug" = "standard") := by decide
  refine ⟨?_, ?_, ?_, ?_⟩
  · intro h
    simp [loggingHandler, hparsed, h, SwapLogger.Swap, ResponseWriter.Write,
      ResponseWriter.WriteHeader, ResponseWriter.fresh]
  · intro h hkv
    simp [loggingHandler, hparsed, h, hdebug, hkv, SwapLogger.Swap, ResponseWriter.Write,
      ResponseWriter.WriteHeader, ResponseWriter.fresh]
  · intro h hk hv
    simp [loggingHandler, hparsed, h, hdebug, hk, hv, SwapLogger.Swap, ResponseWriter.Write,
      ResponseWriter.WriteHeader, ResponseWriter.fresh]
  · intro h1 h2
    simp [loggingHandler, hparsed, h1, h2, ResponseWriter.Write,
      ResponseWriter.WriteHeader, ResponseWriter.fresh]

/-- Witness of C6 at the request `logger=debug&key=user_id&value=42`. -/
theorem C6_logging_handler_mapping_witness :
    loggingHandler (fun _ => none) (fun _ => none) ⟨false, "debug", "user_id", "42"⟩
        (⟨.plain (fun _ => none), 0⟩ : SwapLogger String (Option String)) ResponseWriter.fresh
      = (⟨.filter ⟨some (fun _ => none), some (fun _ => none), "user_id", "42"⟩, 0 + 1⟩,
          ⟨some 200, ["filtered debug logger enabled: " ++ "user_id" ++ "=" ++ "42"]⟩) :=
  (C6_logging_handler_mapping (fun _ => none) (fun _ => none)
    ⟨false, "debug", "user_id", "42"⟩ ⟨.plain (fun _ => none), 0⟩ rfl).2.2.1
    rfl (by decide) (by decide)

/-- C7, the code at a failing input: for a request whose form failed to parse
and whose `logger` field still reads "standard", the handler answers 400 and
writes "form parse failed", then goes on: it swaps in the severity-filtered
logger and writes "standard logger enabled" after the error text. -/
theorem C7_parse_failure_still_swaps {α ε : Type} (baseLogger standardLogger : Logger α ε)
    (logger : SwapLogger α ε) :
    loggingHandler baseLogger standardLogger ⟨true, "standard", "", ""⟩ logger
        ResponseWriter.fresh
      = (⟨.plain standardLogger, logger.swaps + 1⟩,
          ⟨some 400, ["form parse failed", "standard logger enabled"]⟩) := by
  simp [loggingHandler, SwapLogger.Swap, ResponseWriter.Write, ResponseWriter.WriteHeader,
    ResponseWriter.fresh]

/-- C8, refuted as stated: started with a command-line flag that does not
parse, the program exits with code 2, not 1, without running the group; started
with `-h`, it exits with code 0 although no actor group ran and so none ended in
`errInterrupt`. Both exits are made by the flag set, not by `main`. -/
theorem C8_counterexample_flag_set_exits :
    (main ParseOutcome.exitedBadFlag none).exitCode = 2 ∧
    (main ParseOutcome.exitedBadFlag none).exitCode ≠ 1 ∧
    (main ParseOutcome.exitedBadFlag none).groupRan = false ∧
    (main ParseOutcome.exitedHelp none).exitCode = 0 ∧
    (main ParseOutcome.exitedHelp none).groupRan = false := by
  decide

/-- C8, amended: whenever `ff.Parse` returns, the exit code is the one `main`
passes to `os.Exit`: it is 0 exactly when the parse returned no error and the
actor group's terminal error is `errInterrupt`, and 1 for every other terminal
outcome and when the parse returned an error, in which case the group is never
run. When the flag set ends the process inside `ff.Parse`, the group is never
run and the exit code is 2 for a command-line flag that does not parse and 0
for `-h`. -/
theorem C8_exit_code (parse : ParseOutcome) (runErr : Option GoError) :
    (∀ parseErr, parse = .returned parseErr →
      (main parse runErr).deferredExit = true ∧
      ((main parse runErr).exitCode = 0 ↔
        parseErr = none ∧ runErr = some GoError.errInterrupt) ∧
      (¬ (parseErr = none ∧ runErr = some GoError.errInterrupt) →
        (main parse runErr).exitCode = 1) ∧
      ((main parse runErr).groupRan = true ↔ parseErr = none)) ∧
    (parse = .exitedBadFlag →
      (main parse runErr) = ⟨2, false, false⟩) ∧
    (parse = .exitedHelp →
      (main parse runErr) = ⟨0, false, false⟩) := by
  refine ⟨?_, ?_, ?_⟩
  · rintro parseErr rfl
    cases parseErr with
    | some e => simp [main]
    | none =>
      by_cases h : runErr = some GoError.errInterrupt
      · simp [main, h]
      · simp [main, h]
  · rintro rfl
    rfl
  · rintro rfl
    rfl

/-- Witness of C8 (amended): a flag parse that returns an error exits with code
1, through the deferred call, without running the group. -/
theorem C8_exit_code_witness :
    (main (.returned (some (GoError.other "parse flags"))) none).exitCode = 1 ∧
    (main (.returned (some (GoError.other "parse flags"))) none).groupRan = false :=
  have h := (C8_exit_code (.returned (some (GoError.other "parse flags"))) none).1
    (some (GoError.other "parse flags")) rfl
  ⟨h.2.2.1 (by decide), by simpa using h.2.2.2⟩

end Server

end Diagnostic
